import Mathlib

/-!
Shallow embedding of `src/main.rs` of the `rust_calculator` repository:
a lexer (`Lexer`), a recursive-descent parser/evaluator (`Interpreter`
with `factor`/`term`/`expr`), and the per-line driver (`interpret`).

Modelling conventions:
- Rust `i64` values appear as `Int`; the one 64-bit boundary the lexer
  itself enforces, the `parse::<i64>().unwrap()` panic on a literal
  exceeding `i64::MAX`, is modelled by an explicit bound in `lexInteger`.
  Overflow of `+`, `-`, `*` during evaluation is outside the verified
  properties.
- The input text is a `List Char`; `text.len()` is modelled as the
  character count (byte count and character count agree on the ASCII
  inputs the grammar recognizes).
- A Rust `panic!` (process abort) is `Failure.panic`, a recoverable
  `Result::Err(ErrorKind)` is `Failure.err`; both abort the current
  computation in the `Except` monad, but the two classes stay distinct.
- The `while` loops and the `factor`/`term`/`expr` recursion are given
  explicit fuel; exhausted fuel is the panic `fuelExhausted`, playing the
  role of the finite call stack / non-termination (the source bounds
  parenthesis nesting only by the call stack).
- Rust `char::is_whitespace` tests the Unicode `White_Space` property;
  it is modelled by the explicit list `isRustWhitespace`. Rust
  `char::is_ascii_digit` is modelled by `Char.isDigit`; both are exactly
  the set `'0'..'9'`.
-/

namespace RustCalc

/-- The token type of `src/main.rs` (`enum Token`). -/
inductive Token where
  | Integer (v : Int)
  | Plus
  | Minus
  | Mul
  | Div
  | Lparen
  | Rparen
  | Eof
deriving DecidableEq, Repr

/-- The lexer state of `src/main.rs` (`struct Lexer`). -/
structure Lexer where
  text : List Char
  pos : Nat
  current_char : Option Char
deriving DecidableEq, Repr

/-- The payload-free `std::io::ErrorKind` values the lexer can return. -/
inductive ErrKind where
  | invalidData
deriving DecidableEq, Repr

/-- The distinct `panic!` sites of the source (process-aborting failures). -/
inductive PanicKind where
  | lenUnderflow   -- `self.text.len() - 1` underflows on empty text in `advance`
  | parseUnwrap    -- `result.parse().unwrap()` fails: empty digit string or value over `i64::MAX`
  | eatError       -- `panic!("Error parsing the string ...")` in `eat`
  | createError    -- `panic!("Error in creating the interpreter")`
  | factorRule     -- `panic!("Error in the factor rule")`
  | divByZero      -- `result /= ...` with zero divisor panics in Rust
  | fuelExhausted  -- model fuel ran out (finite call stack / non-termination)
deriving DecidableEq, Repr

/-- A failure: either a recoverable `Result::Err` value or a panic. -/
inductive Failure where
  | err (e : ErrKind)
  | panic (p : PanicKind)
deriving DecidableEq, Repr

abbrev Res (α : Type) : Type := Except Failure α

/-- `Lexer::advance`: step `pos` and recache `current_char`.
The source computes `self.text.len() - 1` in `usize`; on empty text that
subtraction underflows, modelled as the panic `lenUnderflow`. -/
def advance (l : Lexer) : Res Lexer :=
  if l.text.length = 0 then
    .error (.panic .lenUnderflow)
  else if l.pos + 1 > l.text.length - 1 then
    .ok { l with pos := l.pos + 1, current_char := none }
  else
    .ok { l with pos := l.pos + 1, current_char := l.text.get? (l.pos + 1) }

/-- Rust `char::is_whitespace`: true exactly for the characters with the
Unicode `White_Space` property (U+0009 to U+000D, U+0020, U+0085, U+00A0,
U+1680, U+2000 to U+200A, U+2028, U+2029, U+202F, U+205F, U+3000). -/
def isRustWhitespace (c : Char) : Bool :=
  (0x09 ≤ c.toNat && c.toNat ≤ 0x0D) || c.toNat = 0x20 || c.toNat = 0x85 ||
  c.toNat = 0xA0 || c.toNat = 0x1680 ||
  (0x2000 ≤ c.toNat && c.toNat ≤ 0x200A) || c.toNat = 0x2028 ||
  c.toNat = 0x2029 || c.toNat = 0x202F || c.toNat = 0x205F ||
  c.toNat = 0x3000

/-- The `while` loop of `Lexer::skip_whitespaces`, with fuel for the
iteration count. -/
def skipWsF (fuel : Nat) (l : Lexer) : Res Lexer :=
  match l.current_char with
  | none => .ok l
  | some c =>
    if isRustWhitespace c then
      match advance l with
      | .error f => .error f
      | .ok l' =>
        match fuel with
        | 0 => .error (.panic .fuelExhausted)
        | fuel' + 1 => skipWsF fuel' l'
    else .ok l

/-- `Lexer::skip_whitespaces` (the loop runs at most `text.length` times). -/
def skip_whitespaces (l : Lexer) : Res Lexer :=
  skipWsF (l.text.length + 1) l

/-- The digit-collecting `while` loop of `Lexer::integer`; `acc` is the
`result` string being pushed onto. -/
def intLoopF (fuel : Nat) (acc : List Char) (l : Lexer) :
    Res (List Char × Lexer) :=
  match l.current_char with
  | none => .ok (acc, l)
  | some c =>
    if c.isDigit then
      match advance l with
      | .error f => .error f
      | .ok l' =>
        match fuel with
        | 0 => .error (.panic .fuelExhausted)
        | fuel' + 1 => intLoopF fuel' (acc ++ [c]) l'
    else .ok (acc, l)

/-- Decimal value of a digit string, as in `str::parse::<i64>`. -/
def digitsVal (ds : List Char) : Nat :=
  ds.foldl (fun a c => 10 * a + (c.toNat - '0'.toNat)) 0

/-- `Lexer::integer`: consume a maximal digit run and parse it with
`parse::<i64>().unwrap()`; the unwrap panics (`parseUnwrap`) on an empty
string and on a value exceeding `i64::MAX` = 2^63 - 1. -/
def lexInteger (l : Lexer) : Res (Int × Lexer) :=
  match intLoopF (l.text.length + 1) [] l with
  | .error f => .error f
  | .ok (ds, l') =>
    if ds = [] then .error (.panic .parseUnwrap)
    else if 9223372036854775807 < digitsVal ds then
      .error (.panic .parseUnwrap)
    else .ok ((digitsVal ds : Int), l')

/-- The outer `while` loop of `Lexer::get_next_token`; an iteration
recurses only after a whitespace skip (`continue`). -/
def gntLoop (fuel : Nat) (l : Lexer) : Res (Token × Lexer) :=
  match l.current_char with
  | none => .ok (.Eof, l)
  | some c =>
    if isRustWhitespace c then
      match skip_whitespaces l with
      | .error f => .error f
      | .ok l' =>
        match fuel with
        | 0 => .error (.panic .fuelExhausted)
        | fuel' + 1 => gntLoop fuel' l'
    else if c.isDigit then
      match lexInteger l with
      | .error f => .error f
      | .ok (v, l') => .ok (.Integer v, l')
    else if c = '+' then
      match advance l with
      | .error f => .error f
      | .ok l' => .ok (.Plus, l')
    else if c = '-' then
      match advance l with
      | .error f => .error f
      | .ok l' => .ok (.Minus, l')
    else if c = '*' then
      match advance l with
      | .error f => .error f
      | .ok l' => .ok (.Mul, l')
    else if c = '/' then
      match advance l with
      | .error f => .error f
      | .ok l' => .ok (.Div, l')
    else if c = '(' then
      match advance l with
      | .error f => .error f
      | .ok l' => .ok (.Lparen, l')
    else if c = ')' then
      match advance l with
      | .error f => .error f
      | .ok l' => .ok (.Rparen, l')
    else
      .error (.err .invalidData)

/-- `Lexer::get_next_token`: after one whitespace skip the next iteration
sees a non-whitespace character, so the outer loop iterates at most twice;
`text.length + 1` fuel is always ample. -/
def get_next_token (l : Lexer) : Res (Token × Lexer) :=
  gntLoop (l.text.length + 1) l

/-- `Lexer::create_lexer`: start at position 0 with `nth(0)` cached. -/
def create_lexer (text : List Char) : Lexer :=
  { text := text, pos := 0, current_char := text.get? 0 }

/-- The parser/evaluator state of `src/main.rs` (`struct Interpreter`);
the borrowed lexer is carried inline. -/
structure Interpreter where
  lexer : Lexer
  current_token : Token
deriving DecidableEq, Repr

/-- `Interpreter::eat`: pull the next token; a lexer `Err` becomes the
panic `eatError`. -/
def eat (i : Interpreter) : Res Interpreter :=
  match get_next_token i.lexer with
  | .ok (t, l') => .ok { lexer := l', current_token := t }
  | .error (.err _) => .error (.panic .eatError)
  | .error (.panic p) => .error (.panic p)

/-- `Interpreter::create_interpreter`: prime the one-token lookahead; a
lexer `Err` becomes the panic `createError`. -/
def create_interpreter (l : Lexer) : Res Interpreter :=
  match get_next_token l with
  | .ok (t, l') => .ok { lexer := l', current_token := t }
  | .error (.err _) => .error (.panic .createError)
  | .error (.panic p) => .error (.panic p)

mutual

/-- `Interpreter::factor` (`factor : INTEGER | LPAREN expr RPAREN`).
In the `Lparen` arm the source performs a second unconditional `eat`
after the inner `expr`, with no check that the lookahead is `Rparen`. -/
def factor : Nat → Interpreter → Res (Int × Interpreter)
  | 0, _ => .error (.panic .fuelExhausted)
  | fuel' + 1, i =>
    match i.current_token with
    | .Integer v =>
      match eat i with
      | .error f => .error f
      | .ok i' => .ok (v, i')
    | .Lparen =>
      match eat i with
      | .error f => .error f
      | .ok i1 =>
        match expr fuel' i1 with
        | .error f => .error f
        | .ok (result, i2) =>
          match eat i2 with
          | .error f => .error f
          | .ok i3 => .ok (result, i3)
    | _ => .error (.panic .factorRule)

/-- The `while` loop of `Interpreter::term`, folding `*` and `/` into the
running `result`; Rust `i64` division truncates toward zero and panics on
a zero divisor. -/
def termLoop : Nat → Int → Interpreter → Res (Int × Interpreter)
  | 0, _, _ => .error (.panic .fuelExhausted)
  | fuel' + 1, result, i =>
    if i.current_token = .Mul then
      match eat i with
      | .error f => .error f
      | .ok i1 =>
        match factor fuel' i1 with
        | .error f => .error f
        | .ok (v, i2) => termLoop fuel' (result * v) i2
    else if i.current_token = .Div then
      match eat i with
      | .error f => .error f
      | .ok i1 =>
        match factor fuel' i1 with
        | .error f => .error f
        | .ok (v, i2) =>
          if v = 0 then .error (.panic .divByZero)
          else termLoop fuel' (result.tdiv v) i2
    else .ok (result, i)

/-- `Interpreter::term` (`term : factor ((MUL | DIV) factor)*`). -/
def term : Nat → Interpreter → Res (Int × Interpreter)
  | 0, _ => .error (.panic .fuelExhausted)
  | fuel' + 1, i =>
    match factor fuel' i with
    | .error f => .error f
    | .ok (result, i1) => termLoop fuel' result i1

/-- The `while` loop of `Interpreter::expr`, folding `+` and `-` into the
running `result`. -/
def exprLoop : Nat → Int → Interpreter → Res (Int × Interpreter)
  | 0, _, _ => .error (.panic .fuelExhausted)
  | fuel' + 1, result, i =>
    if i.current_token = .Plus then
      match eat i with
      | .error f => .error f
      | .ok i1 =>
        match term fuel' i1 with
        | .error f => .error f
        | .ok (v, i2) => exprLoop fuel' (result + v) i2
    else if i.current_token = .Minus then
      match eat i with
      | .error f => .error f
      | .ok i1 =>
        match term fuel' i1 with
        | .error f => .error f
        | .ok (v, i2) => exprLoop fuel' (result - v) i2
    else .ok (result, i)

/-- `Interpreter::expr` (`expr : term ((PLUS | MINUS) term)*`). -/
def expr : Nat → Interpreter → Res (Int × Interpreter)
  | 0, _ => .error (.panic .fuelExhausted)
  | fuel' + 1, i =>
    match term fuel' i with
    | .error f => .error f
    | .ok (result, i1) => exprLoop fuel' result i1

end

/-- Fuel ample for one line: nesting and loop counts are bounded by the
token count, itself bounded by the character count. -/
def lineFuel (s : List Char) : Nat := 4 * s.length + 16

/-- One iteration of `main`'s loop on one line of input: build a fresh
`Lexer` and `Interpreter`, run `expr`, and return its value. The result
of `expr` is returned with no check of the remaining lookahead. -/
def interpret (s : List Char) : Res Int :=
  match create_interpreter (create_lexer s) with
  | .error f => .error f
  | .ok i =>
    match expr (lineFuel s) i with
    | .error f => .error f
    | .ok (v, _) => .ok v

/-- The same evaluation as `interpret`, but keeping the final parser
state, so the leftover lookahead after the top-level `expr` can be
observed. -/
def runLine (s : List Char) : Res (Int × Interpreter) :=
  match create_interpreter (create_lexer s) with
  | .error f => .error f
  | .ok i => expr (lineFuel s) i

/-- The cursor invariant of the spec: the cached `current_char` is the
character of `text` at index `pos` (and so it is `none` exactly when
`pos` is at or past the end of the text). -/
def LexInv (l : Lexer) : Prop :=
  l.current_char = l.text.get? l.pos

/-- Lexer states reachable from construction: the lexer is created by
`create_lexer` and thereafter driven only through `get_next_token`
(by `eat` and `create_interpreter`). -/
inductive ReachableLexer : Lexer → Prop where
  | create (s : List Char) : ReachableLexer (create_lexer s)
  | step {l : Lexer} {t : Token} {l' : Lexer} :
      ReachableLexer l → get_next_token l = .ok (t, l') → ReachableLexer l'

/-- A result that is not a recoverable `Result::Err` value: it is either
a success or a panic. -/
def OkOrPanic {α : Type} : Res α → Prop
  | .error (.err _) => False
  | _ => True

/-! ## Lexer lemmas -/

theorem advance_inv {l l' : Lexer} (h : advance l = .ok l') : LexInv l' := by
  unfold advance at h
  split at h
  · exact Except.noConfusion h
  · rename_i hlen
    split at h
    · rename_i hgt
      injection h with h
      subst h
      show (none : Option Char) = l.text.get? (l.pos + 1)
      exact (List.get?_eq_none.mpr (by omega)).symm
    · injection h with h
      subst h
      rfl

theorem pos_lt_of_some {l : Lexer} {c : Char} (hinv : LexInv l)
    (hc : l.current_char = some c) : l.pos < l.text.length := by
  by_contra hge
  rw [hinv, List.get?_eq_none.mpr (by omega)] at hc
  exact Option.noConfusion hc

theorem advance_ok {l : Lexer} {c : Char} (hinv : LexInv l)
    (hc : l.current_char = some c) :
    ∃ l', advance l = .ok l' ∧ l'.text = l.text ∧ l'.pos = l.pos + 1 ∧
      LexInv l' := by
  have hpos : l.pos < l.text.length := pos_lt_of_some hinv hc
  unfold advance
  rw [if_neg (by omega)]
  split
  · refine ⟨_, rfl, rfl, rfl, ?_⟩
    rename_i hgt
    show (none : Option Char) = l.text.get? (l.pos + 1)
    exact (List.get?_eq_none.mpr (by omega)).symm
  · exact ⟨_, rfl, rfl, rfl, rfl⟩

theorem skipWs_not_ws :
    ∀ (fuel : Nat) (l l' : Lexer), skipWsF fuel l = .ok l' →
      ∀ c, l'.current_char = some c → isRustWhitespace c = false := by
  intro fuel
  induction fuel with
  | zero =>
    intro l l' h c hc
    unfold skipWsF at h
    split at h
    · rename_i heq
      injection h with h
      subst h
      rw [heq] at hc
      exact Option.noConfusion hc
    · rename_i c0 hc0
      split at h
      · split at h
        · exact Except.noConfusion h
        · exact Except.noConfusion h
      · injection h with h
        subst h
        rw [hc0] at hc
        injection hc with hc
        subst hc
        simp_all
  | succ fuel ih =>
    intro l l' h c hc
    unfold skipWsF at h
    split at h
    · rename_i heq
      injection h with h
      subst h
      rw [heq] at hc
      exact Option.noConfusion hc
    · rename_i c0 hc0
      split at h
      · split at h
        · exact Except.noConfusion h
        · exact ih _ _ h c hc
      · injection h with h
        subst h
        rw [hc0] at hc
        injection hc with hc
        subst hc
        simp_all

theorem skipWs_ok :
    ∀ (fuel : Nat) (l : Lexer), LexInv l → l.text.length - l.pos ≤ fuel →
      ∃ l', skipWsF fuel l = .ok l' ∧ l'.text = l.text ∧ LexInv l' := by
  intro fuel
  induction fuel with
  | zero =>
    intro l hinv hfuel
    unfold skipWsF
    split
    · exact ⟨l, rfl, rfl, hinv⟩
    · rename_i c hc
      have := pos_lt_of_some hinv hc
      omega
  | succ fuel ih =>
    intro l hinv hfuel
    unfold skipWsF
    split
    · exact ⟨l, rfl, rfl, hinv⟩
    · rename_i c hc
      split
      · obtain ⟨l1, hadv, htext, hpos, hinv1⟩ := advance_ok hinv hc
        rw [hadv]
        have hlt := pos_lt_of_some hinv hc
        obtain ⟨l', hskip, htext', hinv'⟩ := ih l1 hinv1
          (by rw [htext, hpos]; omega)
        exact ⟨l', hskip, by rw [htext', htext], hinv'⟩
      · exact ⟨l, rfl, rfl, hinv⟩

theorem intLoop_ok :
    ∀ (fuel : Nat) (acc : List Char) (l : Lexer), LexInv l →
      l.text.length - l.pos ≤ fuel →
      ∃ ds l', intLoopF fuel acc l = .ok (ds, l') ∧ l'.text = l.text ∧
        LexInv l' := by
  intro fuel
  induction fuel with
  | zero =>
    intro acc l hinv hfuel
    unfold intLoopF
    split
    · exact ⟨acc, l, rfl, rfl, hinv⟩
    · rename_i c hc
      have := pos_lt_of_some hinv hc
      omega
  | succ fuel ih =>
    intro acc l hinv hfuel
    unfold intLoopF
    split
    · exact ⟨acc, l, rfl, rfl, hinv⟩
    · rename_i c hc
      split
      · obtain ⟨l1, hadv, htext, hpos, hinv1⟩ := advance_ok hinv hc
        rw [hadv]
        have hlt := pos_lt_of_some hinv hc
        obtain ⟨ds, l', hloop, htext', hinv'⟩ := ih (acc ++ [c]) l1 hinv1
          (by rw [htext, hpos]; omega)
        exact ⟨ds, l', hloop, by rw [htext', htext], hinv'⟩
      · exact ⟨acc, l, rfl, rfl, hinv⟩

theorem intLoop_prefix :
    ∀ (fuel : Nat) (acc : List Char) (l : Lexer) (ds : List Char)
      (l' : Lexer), intLoopF fuel acc l = .ok (ds, l') →
      ∃ t, ds = acc ++ t := by
  intro fuel
  induction fuel with
  | zero =>
    intro acc l ds l' h
    unfold intLoopF at h
    split at h
    · injection h with h
      injection h with h1 h2
      exact ⟨[], by rw [← h1, List.append_nil]⟩
    · split at h
      · split at h
        · exact Except.noConfusion h
        · exact Except.noConfusion h
      · injection h with h
        injection h with h1 h2
        exact ⟨[], by rw [← h1, List.append_nil]⟩
  | succ fuel ih =>
    intro acc l ds l' h
    unfold intLoopF at h
    split at h
    · injection h with h
      injection h with h1 h2
      exact ⟨[], by rw [← h1, List.append_nil]⟩
    · rename_i c hc
      split at h
      · split at h
        · exact Except.noConfusion h
        · obtain ⟨t, ht⟩ := ih (acc ++ [c]) _ ds l' h
          exact ⟨c :: t, by rw [ht, List.append_assoc]; rfl⟩
      · injection h with h
        injection h with h1 h2
        exact ⟨[], by rw [← h1, List.append_nil]⟩

theorem lexInteger_nonneg {l : Lexer} {v : Int} {l' : Lexer}
    (h : lexInteger l = .ok (v, l')) : 0 ≤ v := by
  unfold lexInteger at h
  split at h
  · exact Except.noConfusion h
  · split at h
    · exact Except.noConfusion h
    · split at h
      · exact Except.noConfusion h
      · injection h with h
        injection h with h1 h2
        rw [← h1]
        exact Int.natCast_nonneg _

theorem lexInteger_ok {l : Lexer} {c : Char} (hinv : LexInv l)
    (hc : l.current_char = some c) (hd : c.isDigit = true) :
    (∃ v l', lexInteger l = .ok (v, l') ∧ l'.text = l.text ∧ LexInv l') ∨
      lexInteger l = .error (.panic .parseUnwrap) := by
  obtain ⟨l1, hadv, htext, hpos, hinv1⟩ := advance_ok hinv hc
  have hlt := pos_lt_of_some hinv hc
  obtain ⟨ds, l', hloop, htext', hinv'⟩ := intLoop_ok l.text.length [c] l1
    hinv1 (by rw [htext, hpos]; omega)
  obtain ⟨t, ht⟩ := intLoop_prefix _ _ _ _ _ hloop
  have hstep : intLoopF (l.text.length + 1) [] l = .ok (ds, l') := by
    unfold intLoopF
    rw [hc]
    simp only [hd, if_true, hadv]
    exact hloop
  by_cases hbig : 9223372036854775807 < digitsVal ds
  · right
    unfold lexInteger
    rw [hstep]
    simp only [ht, List.singleton_append] at hbig ⊢
    simp [hbig]
  · left
    refine ⟨(digitsVal ds : Int), l', ?_, htext'.trans htext, hinv'⟩
    unfold lexInteger
    rw [hstep]
    simp only [ht, List.singleton_append] at hbig ⊢
    simp [hbig]

theorem gnt_step (fuel : Nat) (l : Lexer) (hinv : LexInv l)
    (hws : ∀ c, l.current_char = some c → isRustWhitespace c = false) :
    (∃ t l', gntLoop fuel l = .ok (t, l') ∧ LexInv l') ∨
      gntLoop fuel l = .error (.err .invalidData) ∨
      gntLoop fuel l = .error (.panic .parseUnwrap) := by
  unfold gntLoop
  split
  · exact .inl ⟨.Eof, l, rfl, hinv⟩
  · rename_i c hc
    rw [if_neg (by simp [hws c hc])]
    split
    · rename_i hd
      rcases lexInteger_ok hinv hc hd with ⟨v, l', heq, _, hinv'⟩ | heq
      · rw [heq]
        exact .inl ⟨.Integer v, l', rfl, hinv'⟩
      · rw [heq]
        exact .inr (.inr rfl)
    · split
      · obtain ⟨l', hadv, _, _, hinv'⟩ := advance_ok hinv hc
        rw [hadv]
        exact .inl ⟨.Plus, l', rfl, hinv'⟩
      · split
        · obtain ⟨l', hadv, _, _, hinv'⟩ := advance_ok hinv hc
          rw [hadv]
          exact .inl ⟨.Minus, l', rfl, hinv'⟩
        · split
          · obtain ⟨l', hadv, _, _, hinv'⟩ := advance_ok hinv hc
            rw [hadv]
            exact .inl ⟨.Mul, l', rfl, hinv'⟩
          · split
            · obtain ⟨l', hadv, _, _, hinv'⟩ := advance_ok hinv hc
              rw [hadv]
              exact .inl ⟨.Div, l', rfl, hinv'⟩
            · split
              · obtain ⟨l', hadv, _, _, hinv'⟩ := advance_ok hinv hc
                rw [hadv]
                exact .inl ⟨.Lparen, l', rfl, hinv'⟩
              · split
                · obtain ⟨l', hadv, _, _, hinv'⟩ := advance_ok hinv hc
                  rw [hadv]
                  exact .inl ⟨.Rparen, l', rfl, hinv'⟩
                · exact .inr (.inl rfl)

theorem gnt_ok (l : Lexer) (hinv : LexInv l) :
    (∃ t l', get_next_token l = .ok (t, l') ∧ LexInv l') ∨
      get_next_token l = .error (.err .invalidData) ∨
      get_next_token l = .error (.panic .parseUnwrap) := by
  cases hc : l.current_char with
  | none =>
    refine .inl ⟨.Eof, l, ?_, hinv⟩
    unfold get_next_token gntLoop
    rw [hc]
  | some c =>
    by_cases hcw : isRustWhitespace c = true
    · obtain ⟨l1, hskip, htext1, hinv1⟩ :=
        skipWs_ok (l.text.length + 1) l hinv (by omega)
      have hnws := skipWs_not_ws _ _ _ hskip
      have hstep : get_next_token l = gntLoop l.text.length l1 := by
        conv_lhs => rw [get_next_token, gntLoop]
        rw [hc]
        unfold skip_whitespaces
        simp [hcw, hskip]
      rcases gnt_step l.text.length l1 hinv1 hnws with
        ⟨t, l', heq, hinv'⟩ | heq | heq
      · exact .inl ⟨t, l', hstep.trans heq, hinv'⟩
      · exact .inr (.inl (hstep.trans heq))
      · exact .inr (.inr (hstep.trans heq))
    · have hnws : ∀ c0, l.current_char = some c0 →
          isRustWhitespace c0 = false := by
        intro c0 hc0
        rw [hc] at hc0
        injection hc0 with hc0
        subst hc0
        simpa using hcw
      exact gnt_step (l.text.length + 1) l hinv hnws

theorem gnt_inv {l : Lexer} {t : Token} {l' : Lexer} (hinv : LexInv l)
    (h : get_next_token l = .ok (t, l')) : LexInv l' := by
  rcases gnt_ok l hinv with ⟨t0, l0, heq, hinv'⟩ | heq | heq
  · rw [heq] at h
    injection h with h
    injection h with h1 h2
    rw [← h2]
    exact hinv'
  · rw [heq] at h
    exact Except.noConfusion h
  · rw [heq] at h
    exact Except.noConfusion h

theorem reachable_inv : ∀ l, ReachableLexer l → LexInv l := by
  intro l h
  induction h with
  | create s => rfl
  | step _ heq ih => exact gnt_inv ih heq

theorem gntLoop_integer_nonneg :
    ∀ (fuel : Nat) (l : Lexer) (v : Int) (l' : Lexer),
      gntLoop fuel l = .ok (.Integer v, l') → 0 ≤ v := by
  intro fuel
  induction fuel with
  | zero =>
    intro l v l' h
    unfold gntLoop at h
    split at h
    · simp_all
    · split at h
      · split at h
        · exact Except.noConfusion h
        · exact Except.noConfusion h
      · split at h
        · split at h
          · exact Except.noConfusion h
          · rename_i heq
            simp only [Except.ok.injEq, Prod.mk.injEq, Token.Integer.injEq] at h
            rw [← h.1]
            exact lexInteger_nonneg heq
        · repeat' split at h
          all_goals simp_all
  | succ fuel ih =>
    intro l v l' h
    unfold gntLoop at h
    split at h
    · simp_all
    · split at h
      · split at h
        · exact Except.noConfusion h
        · exact ih _ _ _ h
      · split at h
        · split at h
          · exact Except.noConfusion h
          · rename_i heq
            simp only [Except.ok.injEq, Prod.mk.injEq, Token.Integer.injEq] at h
            rw [← h.1]
            exact lexInteger_nonneg heq
        · repeat' split at h
          all_goals simp_all

/-! ## Parser lemmas -/

theorem okOrPanic_cases {α : Type} (x : Res α) (h : OkOrPanic x) :
    (∃ v, x = .ok v) ∨ (∃ p, x = .error (.panic p)) := by
  match x with
  | .ok v => exact .inl ⟨v, rfl⟩
  | .error (.panic p) => exact .inr ⟨p, rfl⟩
  | .error (.err e) => exact h.elim

theorem okOrPanic_eat (i : Interpreter) : OkOrPanic (eat i) := by
  unfold eat
  split <;> trivial

theorem okOrPanic_create (l : Lexer) : OkOrPanic (create_interpreter l) := by
  unfold create_interpreter
  split <;> trivial

theorem parser_okOrPanic : ∀ fuel : Nat,
    (∀ i, OkOrPanic (factor fuel i)) ∧
    (∀ r i, OkOrPanic (termLoop fuel r i)) ∧
    (∀ i, OkOrPanic (term fuel i)) ∧
    (∀ r i, OkOrPanic (exprLoop fuel r i)) ∧
    (∀ i, OkOrPanic (expr fuel i)) := by
  intro fuel
  induction fuel with
  | zero =>
    exact ⟨fun _ => trivial, fun _ _ => trivial, fun _ => trivial,
      fun _ _ => trivial, fun _ => trivial⟩
  | succ fuel ih =>
    obtain ⟨ihF, ihTL, ihT, ihEL, ihE⟩ := ih
    have hF : ∀ i, OkOrPanic (factor (fuel + 1) i) := by
      intro i
      simp only [factor]
      cases ht : i.current_token
      case Integer v =>
        rcases okOrPanic_cases _ (okOrPanic_eat i) with ⟨i1, he⟩ | ⟨p, he⟩ <;>
          simp only [he] <;> trivial
      case Lparen =>
        rcases okOrPanic_cases _ (okOrPanic_eat i) with ⟨i1, he⟩ | ⟨p, he⟩ <;>
          simp only [he]
        · rcases okOrPanic_cases _ (ihE i1) with ⟨⟨v, i2⟩, he2⟩ | ⟨p, he2⟩ <;>
            simp only [he2]
          · rcases okOrPanic_cases _ (okOrPanic_eat i2) with ⟨i3, he3⟩ | ⟨p, he3⟩ <;>
              simp only [he3] <;> trivial
          · trivial
        · trivial
      all_goals trivial
    have hTL : ∀ r i, OkOrPanic (termLoop (fuel + 1) r i) := by
      intro r i
      simp only [termLoop]
      split
      · rcases okOrPanic_cases _ (okOrPanic_eat i) with ⟨i1, he⟩ | ⟨p, he⟩ <;>
          simp only [he]
        · rcases okOrPanic_cases _ (ihF i1) with ⟨⟨v, i2⟩, he2⟩ | ⟨p, he2⟩ <;>
            simp only [he2]
          · exact ihTL _ _
          · trivial
        · trivial
      · split
        · rcases okOrPanic_cases _ (okOrPanic_eat i) with ⟨i1, he⟩ | ⟨p, he⟩ <;>
            simp only [he]
          · rcases okOrPanic_cases _ (ihF i1) with ⟨⟨v, i2⟩, he2⟩ | ⟨p, he2⟩ <;>
              simp only [he2]
            · split
              · trivial
              · exact ihTL _ _
            · trivial
          · trivial
        · trivial
    have hT : ∀ i, OkOrPanic (term (fuel + 1) i) := by
      intro i
      simp only [term]
      rcases okOrPanic_cases _ (ihF i) with ⟨⟨v, i1⟩, he⟩ | ⟨p, he⟩ <;> simp only [he]
      · exact ihTL _ _
      · trivial
    have hEL : ∀ r i, OkOrPanic (exprLoop (fuel + 1) r i) := by
      intro r i
      simp only [exprLoop]
      split
      · rcases okOrPanic_cases _ (okOrPanic_eat i) with ⟨i1, he⟩ | ⟨p, he⟩ <;>
          simp only [he]
        · rcases okOrPanic_cases _ (ihT i1) with ⟨⟨v, i2⟩, he2⟩ | ⟨p, he2⟩ <;>
            simp only [he2]
          · exact ihEL _ _
          · trivial
        · trivial
      · split
        · rcases okOrPanic_cases _ (okOrPanic_eat i) with ⟨i1, he⟩ | ⟨p, he⟩ <;>
            simp only [he]
          · rcases okOrPanic_cases _ (ihT i1) with ⟨⟨v, i2⟩, he2⟩ | ⟨p, he2⟩ <;>
              simp only [he2]
            · exact ihEL _ _
            · trivial
          · trivial
        · trivial
    have hE : ∀ i, OkOrPanic (expr (fuel + 1) i) := by
      intro i
      simp only [expr]
      rcases okOrPanic_cases _ (ihT i) with ⟨⟨v, i1⟩, he⟩ | ⟨p, he⟩ <;> simp only [he]
      · exact ihEL _ _
      · trivial
    exact ⟨hF, hTL, hT, hEL, hE⟩

/-! ## Claim theorems -/

set_option maxHeartbeats 4000000 in
/-- C1: the claim states that an unclosed `(` (for example `"(2 + 3"`)
fails with a `SyntaxError`, the factor rule requiring a `RightParen`
before consuming it. The code instead `eat`s whatever token follows the
inner `expr` without any check, so `"(2 + 3"` silently evaluates to `5`
(the token consumed in place of `)` being `Eof`). -/
theorem unclosed_paren_accepted :
    interpret "(2 + 3".data = .ok 5 ∧
    (runLine "(2 + 3".data).map (fun p => (p.1, p.2.current_token)) =
      .ok (5, Token.Eof) :=
  ⟨rfl, rfl⟩

set_option maxHeartbeats 4000000 in
/-- C2: an input consisting of a complete expression followed by extra
trailing tokens returns the value of the leading expression with no
error: whatever `expr` leaves in the lookahead, `interpret` returns the
value, and on `"2 + 3)"` the leftover lookahead is `Rparen` (not `Eof`)
yet the result is `.ok 5`. -/
theorem trailing_tokens_ignored :
    (∀ (s : List Char) (v : Int) (i' : Interpreter),
      runLine s = .ok (v, i') → interpret s = .ok v) ∧
    (runLine "2 + 3)".data).map (fun p => (p.1, p.2.current_token)) =
      .ok (5, Token.Rparen) ∧
    interpret "2 + 3)".data = .ok 5 := by
  refine ⟨?_, rfl, rfl⟩
  intro s v i' h
  unfold runLine at h
  unfold interpret
  split at h
  · exact Except.noConfusion h
  · rw [h]

set_option maxHeartbeats 4000000 in
theorem trailing_tokens_ignored_witness :
    interpret "2 + 3)".data = .ok 5 :=
  trailing_tokens_ignored.1 _ 5 _ rfl

set_option maxHeartbeats 4000000 in
/-- C3: a division whose right operand evaluates to zero fails with the
division-by-zero failure and never returns a numeric value: whenever the
`term` loop consumes a `Div` and the following `factor` yields `0`, the
loop aborts with `divByZero`, and concretely `"5 / 0"` evaluates to that
failure. -/
theorem division_by_zero_errors :
    (∀ (fuel : Nat) (acc : Int) (i i1 i2 : Interpreter),
      i.current_token = Token.Div → eat i = .ok i1 →
      factor fuel i1 = .ok (0, i2) →
      termLoop (fuel + 1) acc i = .error (.panic .divByZero)) ∧
    interpret "5 / 0".data = .error (.panic .divByZero) := by
  refine ⟨?_, rfl⟩
  intro fuel acc i i1 i2 ht he hf
  simp only [termLoop, ht]
  rw [if_pos trivial]
  simp [he, hf]

theorem division_by_zero_errors_witness :
    (⟨create_lexer ('0' :: []), Token.Div⟩ : Interpreter).current_token =
      Token.Div ∧
    eat ⟨create_lexer ('0' :: []), Token.Div⟩ =
      .ok ⟨⟨'0' :: [], 1, none⟩, .Integer 0⟩ ∧
    factor 1 ⟨⟨'0' :: [], 1, none⟩, .Integer 0⟩ =
      .ok (0, ⟨⟨'0' :: [], 1, none⟩, .Eof⟩) ∧
    termLoop 2 7 ⟨create_lexer ('0' :: []), Token.Div⟩ =
      .error (.panic .divByZero) :=
  ⟨rfl, rfl, rfl, division_by_zero_errors.1 1 7 _ _ _ rfl rfl rfl⟩

set_option maxHeartbeats 4000000 in
/-- C4: evaluation respects precedence (`*`/`/` over `+`/`-`, with
parentheses overriding) and left-associativity: `"2 + 3 * 4"` is `14`,
`"(2 + 3) * 4"` is `20`, `"8 / 4 / 2"` is `(8/4)/2 = 1`, and
`"2 - 3 - 4"` is `-5`. -/
theorem precedence_associativity :
    interpret "2 + 3 * 4".data = .ok 14 ∧
    interpret "(2 + 3) * 4".data = .ok 20 ∧
    interpret "8 / 4 / 2".data = .ok 1 ∧
    interpret "2 - 3 - 4".data = .ok (-5) :=
  ⟨rfl, rfl, rfl, rfl⟩

set_option maxHeartbeats 4000000 in
/-- C5 counterexample: an invalid character on a line does not propagate
to the line boundary as a recoverable error value; `eat` converts the
lexer's `Err` into a process-terminating `panic!`, so `"2 & 3"` aborts
the process. -/
theorem lex_error_panics_counterexample :
    interpret "2 & 3".data = .error (.panic .eatError) := rfl

/-- C5 (amended): no evaluation of a line ever surfaces a recoverable
`Result::Err` value at the line boundary: every outcome of `interpret`
is either a value or a `panic!` (process termination), because `eat` and
`create_interpreter` turn lexer `Err`s into panics and all parser
failures are panics. -/
theorem failures_are_panics :
    ∀ s : List Char, (∃ v, interpret s = .ok v) ∨
      (∃ p, interpret s = .error (.panic p)) := by
  intro s
  unfold interpret
  rcases okOrPanic_cases _ (okOrPanic_create (create_lexer s)) with
    ⟨i, he⟩ | ⟨p, he⟩ <;> simp only [he]
  · rcases okOrPanic_cases _ ((parser_okOrPanic (lineFuel s)).2.2.2.2 i) with
      ⟨⟨v, i'⟩, he2⟩ | ⟨p, he2⟩ <;> simp only [he2]
    · exact .inl ⟨v, rfl⟩
    · exact .inr ⟨p, rfl⟩
  · exact .inr ⟨p, rfl⟩

/-- C6 counterexample: the lexer's invalid-character error is the
payload-free `ErrorKind::InvalidData`: lexing `"&1"` (offending `'&'` at
position 0) and `" %2"` (offending `'%'` at position 1) produce the very
same error value, so the error identifies neither the character nor its
position, contrary to the claim. -/
theorem invalid_char_payload_free :
    get_next_token (create_lexer ('&' :: '1' :: [])) =
      .error (.err .invalidData) ∧
    get_next_token (create_lexer (' ' :: '%' :: '2' :: [])) =
      .error (.err .invalidData) :=
  ⟨rfl, rfl⟩

/-- C6 (amended): for every lexer state whose current character is
outside the recognized set (not Rust whitespace, not an ASCII digit, not
one of `+ - * / ( )`), `get_next_token` fails with the payload-free
`ErrorKind::InvalidData`; the offending character and its position are
not part of the error value. -/
theorem unrecognized_char_invalidData :
    ∀ (l : Lexer) (c : Char), l.current_char = some c →
      isRustWhitespace c = false → c.isDigit = false →
      c ≠ '+' → c ≠ '-' → c ≠ '*' → c ≠ '/' → c ≠ '(' → c ≠ ')' →
      get_next_token l = .error (.err .invalidData) := by
  intro l c hc hw hd h1 h2 h3 h4 h5 h6
  unfold get_next_token gntLoop
  rw [hc]
  simp [hw, hd, h1, h2, h3, h4, h5, h6]

theorem unrecognized_char_invalidData_witness :
    (create_lexer ('&' :: [])).current_char = some '&' ∧
    get_next_token (create_lexer ('&' :: [])) = .error (.err .invalidData) :=
  ⟨rfl, unrecognized_char_invalidData _ '&' rfl (by decide) (by decide)
    (by decide) (by decide) (by decide) (by decide) (by decide) (by decide)⟩

/-- C7: for every lexer state reachable from construction, the cached
`current_char` equals the character of `text` at index `pos`, and is
`none` iff `pos` is at or past the end of the text; moreover every
successful `advance` re-establishes this invariant. -/
theorem lexer_cursor_invariant :
    (∀ l l' : Lexer, advance l = .ok l' →
      l'.current_char = l'.text.get? l'.pos) ∧
    (∀ l : Lexer, ReachableLexer l →
      l.current_char = l.text.get? l.pos ∧
      (l.current_char = none ↔ l.text.length ≤ l.pos)) := by
  constructor
  · exact fun l l' h => advance_inv h
  · intro l hre
    have hinv := reachable_inv l hre
    refine ⟨hinv, ?_⟩
    rw [hinv]
    exact List.get?_eq_none

theorem lexer_cursor_invariant_witness :
    ((⟨'1' :: '2' :: [], 1, some '2'⟩ : Lexer).current_char =
      (⟨'1' :: '2' :: [], 1, some '2'⟩ : Lexer).text.get?
        (⟨'1' :: '2' :: [], 1, some '2'⟩ : Lexer).pos) ∧
    (create_lexer ('1' :: '+' :: '2' :: [])).current_char =
      (create_lexer ('1' :: '+' :: '2' :: [])).text.get?
        (create_lexer ('1' :: '+' :: '2' :: [])).pos ∧
    ((create_lexer ('1' :: '+' :: '2' :: [])).current_char = none ↔
      (create_lexer ('1' :: '+' :: '2' :: [])).text.length ≤
        (create_lexer ('1' :: '+' :: '2' :: [])).pos) :=
  ⟨lexer_cursor_invariant.1 (create_lexer ('1' :: '2' :: []))
      ⟨'1' :: '2' :: [], 1, some '2'⟩ rfl,
    lexer_cursor_invariant.2 _ (.create _)⟩

set_option maxHeartbeats 4000000 in
/-- C8: the lexer skips any run of whitespace before recognizing a token
(after `skip_whitespaces` the current character is never whitespace in
Rust's `char::is_whitespace` sense, so no whitespace token is ever
produced), and whitespace between tokens does not affect evaluation:
`"  2+ 3 "` and `"2+3"` both evaluate to `5`. -/
theorem whitespace_insensitivity :
    (∀ (fuel : Nat) (l l' : Lexer), skipWsF fuel l = .ok l' →
      ∀ c, l'.current_char = some c → isRustWhitespace c = false) ∧
    interpret "  2+ 3 ".data = interpret "2+3".data ∧
    interpret "2+3".data = .ok 5 :=
  ⟨skipWs_not_ws, rfl, rfl⟩

theorem whitespace_insensitivity_witness :
    skipWsF 2 (create_lexer (' ' :: '7' :: [])) =
      .ok ⟨' ' :: '7' :: [], 1, some '7'⟩ ∧
    isRustWhitespace '7' = false :=
  ⟨rfl, whitespace_insensitivity.1 2 (create_lexer (' ' :: '7' :: []))
    ⟨' ' :: '7' :: [], 1, some '7'⟩ rfl '7' rfl⟩

/-- C9: every `Integer` token produced by the lexer carries a
non-negative value: it is parsed from a run of ASCII digits with no
sign. -/
theorem integer_tokens_nonneg :
    ∀ (l : Lexer) (v : Int) (l' : Lexer),
      get_next_token l = .ok (.Integer v, l') → 0 ≤ v :=
  fun l v l' h => gntLoop_integer_nonneg (l.text.length + 1) l v l' h

theorem integer_tokens_nonneg_witness :
    get_next_token (create_lexer ('4' :: '2' :: [])) =
      .ok (.Integer 42, ⟨'4' :: '2' :: [], 2, none⟩) ∧ (0 : Int) ≤ 42 :=
  ⟨rfl, integer_tokens_nonneg (create_lexer ('4' :: '2' :: [])) 42
    ⟨'4' :: '2' :: [], 2, none⟩ rfl⟩

/-- C10: under the cursor invariant, whenever `current_char` holds a
character the text is non-empty, so the `text.len() - 1` computation in
`advance` cannot underflow and `advance` succeeds; consequently the full
tokenizer driven from such states never hits the underflow panic: its
only failures are `InvalidData` for an unrecognized character or the
`parse().unwrap()` panic on an over-`i64::MAX` literal. -/
theorem advance_total_under_invariant :
    (∀ (l : Lexer) (c : Char), l.current_char = l.text.get? l.pos →
      l.current_char = some c →
      ∃ l', advance l = .ok l' ∧ l'.pos = l.pos + 1) ∧
    (∀ (l : Lexer) (f : Failure), l.current_char = l.text.get? l.pos →
      get_next_token l = .error f →
      f = .err .invalidData ∨ f = .panic .parseUnwrap) := by
  constructor
  · intro l c hinv hc
    obtain ⟨l', ha, _, hp, _⟩ := advance_ok hinv hc
    exact ⟨l', ha, hp⟩
  · intro l f hinv herr
    rcases gnt_ok l hinv with ⟨t, l', heq, _⟩ | heq | heq
    · rw [heq] at herr
      exact Except.noConfusion herr
    · rw [heq] at herr
      injection herr with h
      exact .inl h.symm
    · rw [heq] at herr
      injection herr with h
      exact .inr h.symm

theorem advance_total_under_invariant_witness :
    (∃ l', advance (create_lexer ('8' :: [])) = .ok l' ∧
      l'.pos = (create_lexer ('8' :: [])).pos + 1) ∧
    ((Failure.err .invalidData : Failure) = .err .invalidData ∨
      (Failure.err .invalidData : Failure) = .panic .parseUnwrap) :=
  ⟨advance_total_under_invariant.1 _ '8' rfl rfl,
    advance_total_under_invariant.2 (create_lexer ('&' :: []))
      (.err .invalidData) rfl rfl⟩

end RustCalc
